import Mathlib

/-!
Verification of the object-store core of `libwyag.py` (build-your-own-git).

Shallow embedding conventions:
- bytes are `Nat` (meaningful values are < 256); byte strings are `List Nat`;
- 32-bit machine arithmetic is `Nat` arithmetic reduced `% 2 ^ 32`;
- the filesystem seen by the object store is an association list from flat
  byte-string paths (relative to the repository's `.git` directory) to file
  contents; directory creation (`mkdir`) has no effect on file contents and is
  not tracked;
- zlib is abstracted as a `Codec`: any compression function with a
  left-inverse decompression (which zlib provides);
- fallible Python code becomes `Except GitError` / `Option`;
- all recursion is structural (fuelled where the source recursion is not),
  so every definition evaluates inside the kernel.
-/

/-- Byte values of a string's characters (ASCII byte strings). -/
def ascii (s : String) : List Nat := s.data.map Char.toNat

/-- Python `bytes.find(b)`: index of the first occurrence of byte `b`, if any.
The source's `-1` sentinel becomes `none`. -/
def bytesFind : List Nat → Nat → Option Nat
  | [], _ => none
  | c :: cs, b => if c = b then some 0 else (bytesFind cs b).map (· + 1)

/-- Python `bytes.find(b, start)`: first occurrence at index ≥ `start`. -/
def findFrom (l : List Nat) (b : Nat) (start : Nat) : Option Nat :=
  (bytesFind (l.drop start) b).map (· + start)

/-- Python pySlice `l[i:j]` for `0 ≤ i ≤ j` (the only shape the embedded code uses). -/
def pySlice (l : List Nat) (i j : Nat) : List Nat := (l.take j).drop i

/-- Fuelled decimal printer: digits of `n`, most significant first. -/
def toDecStrF : Nat → Nat → List Nat
  | 0, _ => []
  | fuel + 1, n => if n < 10 then [48 + n] else toDecStrF fuel (n / 10) ++ [48 + n % 10]

/-- Python `str(n).encode()` for a natural number: ASCII decimal digits, no
leading zeros (`str(0) = "0"`). -/
def toDecStr (n : Nat) : List Nat := toDecStrF (n + 1) n

/-- Accumulating parse of a non-empty all-digit byte string; `none` as soon as a
non-digit appears. -/
def parseDigitsAcc : Nat → List Nat → Option Nat
  | acc, [] => some acc
  | acc, d :: ds => if 48 ≤ d ∧ d ≤ 57 then parseDigitsAcc (acc * 10 + (d - 48)) ds else none

/-- Whitespace bytes stripped by Python's `int()`. -/
def isSpaceByte (b : Nat) : Bool :=
  b = 32 || b = 9 || b = 10 || b = 13 || b = 11 || b = 12

/-- Strip leading and trailing whitespace bytes. -/
def stripSpaces (l : List Nat) : List Nat :=
  ((l.dropWhile isSpaceByte).reverse.dropWhile isSpaceByte).reverse

/-- Python `int(s)` on an ASCII byte string: optional surrounding whitespace, an
optional sign, then one or more decimal digits.  (Underscore digit grouping and
non-ASCII bytes, which the source would reject with a different exception, are
not modelled.) -/
def pyInt (l : List Nat) : Option Int :=
  match stripSpaces l with
  | [] => none
  | c :: ds =>
    if c = 43 then
      if ds = [] then none else (parseDigitsAcc 0 ds).map (fun n => (n : Int))
    else if c = 45 then
      if ds = [] then none else (parseDigitsAcc 0 ds).map (fun n => -(n : Int))
    else (parseDigitsAcc 0 (c :: ds)).map (fun n => (n : Int))

/-- Lowercase hex digit (as a byte) of a nibble. -/
def hexDigit (n : Nat) : Nat := if n < 10 then 48 + n else 87 + n

/-- Lowercase hex encoding of a byte string (`bytes.hex()` / `hexdigest`). -/
def toHex : List Nat → List Nat
  | [] => []
  | b :: bs => hexDigit (b / 16 % 16) :: hexDigit (b % 16) :: toHex bs

/-! SHA-1 (FIPS 180-4), on byte lists, all arithmetic `% 2 ^ 32`. -/

/-- Rotate a 32-bit word left by `n`. -/
def rotl (n x : Nat) : Nat := ((x <<< n) ||| (x >>> (32 - n))) % 4294967296

/-- Big-endian 8-byte encoding of a (length) value. -/
def be8 (n : Nat) : List Nat :=
  [n >>> 56 % 256, n >>> 48 % 256, n >>> 40 % 256, n >>> 32 % 256,
   n >>> 24 % 256, n >>> 16 % 256, n >>> 8 % 256, n % 256]

/-- Big-endian 4-byte encoding of a 32-bit word. -/
def wordBE (h : Nat) : List Nat := [h >>> 24 % 256, h >>> 16 % 256, h >>> 8 % 256, h % 256]

/-- SHA-1 message padding: `0x80`, zeros to 56 mod 64, then the bit length. -/
def sha1Pad (msg : List Nat) : List Nat :=
  msg ++ [128] ++ List.replicate ((119 - msg.length % 64) % 64) 0 ++ be8 (8 * msg.length)

/-- Split into 64-byte blocks (fuelled; fuel ≥ length suffices). -/
def chunks64F : Nat → List Nat → List (List Nat)
  | 0, _ => []
  | _ + 1, [] => []
  | fuel + 1, x :: xs => (x :: xs.take 63) :: chunks64F fuel (xs.drop 63)

/-- Pack bytes into big-endian 32-bit words. -/
def toWords : List Nat → List Nat
  | b0 :: b1 :: b2 :: b3 :: rest =>
    (b0 * 16777216 + b1 * 65536 + b2 * 256 + b3) :: toWords rest
  | _ => []

/-- Extend the 16 message words to 80 (one extension step per unit of fuel). -/
def sha1Extend (ws : List Nat) : Nat → List Nat
  | 0 => ws
  | fuel + 1 =>
    sha1Extend
      (ws ++ [rotl 1 (ws.getD (ws.length - 3) 0 ^^^ ws.getD (ws.length - 8) 0 ^^^
                      ws.getD (ws.length - 14) 0 ^^^ ws.getD (ws.length - 16) 0)]) fuel

/-- Round function `f` of SHA-1. -/
def sha1F (i b c d : Nat) : Nat :=
  if i < 20 then (b &&& c) ||| ((b ^^^ 4294967295) &&& d)
  else if i < 40 then b ^^^ c ^^^ d
  else if i < 60 then (b &&& c) ||| (b &&& d) ||| (c &&& d)
  else b ^^^ c ^^^ d

/-- Round constant `k` of SHA-1. -/
def sha1K (i : Nat) : Nat :=
  if i < 20 then 1518500249
  else if i < 40 then 1859775393
  else if i < 60 then 2400959708
  else 3395469782

/-- The 80 compression rounds over the word schedule. -/
def sha1Loop : List Nat → Nat → Nat × Nat × Nat × Nat × Nat → Nat × Nat × Nat × Nat × Nat
  | [], _, st => st
  | w :: ws, i, (a, b, c, d, e) =>
    sha1Loop ws (i + 1)
      ((rotl 5 a + sha1F i b c d + e + sha1K i + w) % 4294967296, a, rotl 30 b, c, d)

/-- Process one 64-byte block. -/
def sha1Block (h : Nat × Nat × Nat × Nat × Nat) (block : List Nat) :
    Nat × Nat × Nat × Nat × Nat :=
  match h, sha1Loop (sha1Extend (toWords block) 64) 0 h with
  | (h0, h1, h2, h3, h4), (a, b, c, d, e) =>
    ((h0 + a) % 4294967296, (h1 + b) % 4294967296, (h2 + c) % 4294967296,
     (h3 + d) % 4294967296, (h4 + e) % 4294967296)

/-- SHA-1 digest (20 bytes) of a byte string. -/
def sha1 (msg : List Nat) : List Nat :=
  match (chunks64F (sha1Pad msg).length (sha1Pad msg)).foldl sha1Block
      (1732584193, 4023233417, 2562383102, 271733878, 3285377520) with
  | (h0, h1, h2, h3, h4) => wordBE h0 ++ wordBE h1 ++ wordBE h2 ++ wordBE h3 ++ wordBE h4

/-- `hashlib.sha1(m).hexdigest()`: lowercase 40-character hex digest, as bytes. -/
def sha1Hex (msg : List Nat) : List Nat := toHex (sha1 msg)

/-! The object model and the object store (`libwyag.py` lines 204-295). -/

/-- Error kinds of the core, named as in the spec; each corresponds to one
`raise` site of the source (or, for `HeaderParseFailure`, to the untyped
exceptions `int()` / `decode` raise on a header without a space, without a NUL,
or with a non-numeric length field). -/
inductive GitError where
  | RepositoryNotFound
  | NotARepository
  | MissingConfig
  | ConfigParseFailure
  | UnsupportedFormatVersion
  | NotADirectory
  | TargetNotEmpty
  | ObjectNotFound
  | CorruptObject
  | UnknownObjectType
  | HeaderParseFailure
  deriving DecidableEq, Repr

/-- The four object variants: the closed enumeration dispatched by
`object_read` (source lines 261-264). -/
inductive ObjType where
  | blob
  | tree
  | commit
  | tag
  deriving DecidableEq, Repr

/-- The `fmt` byte string of each variant (`b'blob'`, `b'tree'`, `b'commit'`,
`b'tag'`). -/
def fmtBytes : ObjType → List Nat
  | .blob => [98, 108, 111, 98]
  | .tree => [116, 114, 101, 101]
  | .commit => [99, 111, 109, 109, 105, 116]
  | .tag => [116, 97, 103]

/-- Modelled from the spec: the classes `GitBlob`, `GitTree`, `GitCommit` and
`GitTag` are absent from `src/libwyag.py` (only `object_read` and `object_write`
reference them).  Per spec §3 each variant is an immutable typed byte payload
whose serialize/deserialize contract is byte-in/byte-out identity (only Blob's
internal structure is committed, and it is the identity).  The `repo` field the
Python constructor also stores is dropped: no modelled operation consults it. -/
structure GitObject where
  fmt : ObjType
  payload : List Nat
  deriving DecidableEq, Repr

/-- Modelled from the spec: `obj.serialize()` is the identity on the payload. -/
def GitObject.serialize (o : GitObject) : List Nat := o.payload

/-- Abstraction of zlib: a compression with a left-inverse decompression
(`zlib.decompress(zlib.compress(b)) == b`); `decompress` is `none` on input
zlib would reject. -/
structure Codec where
  compress : List Nat → List Nat
  decompress : List Nat → Option (List Nat)
  decompress_compress : ∀ b, decompress (compress b) = some b

/-- The trivial codec, used to evaluate the store on concrete inputs. -/
def idCodec : Codec := ⟨fun b => b, fun b => some b, fun _ => rfl⟩

/-- The files below the repository's `.git` directory: an association list from
flat byte-string paths to file contents (newest entry first, as `open(path,'wb')`
replaces a file's contents). -/
abbrev Store : Type := List (List Nat × List Nat)

/-- Content of the file at a path, if any. -/
def storeLookup : Store → List Nat → Option (List Nat)
  | [], _ => none
  | (p, c) :: rest, q => if p = q then some c else storeLookup rest q

/-- The storage path `"objects/" + sha[0:2] + "/" + sha[2:]` that
`repo_file(repo, "objects", sha[0:2], sha[2:])` computes (source lines 244, 289),
relative to the `.git` directory. -/
def objectPath (sha : List Nat) : List Nat :=
  ascii "objects/" ++ sha.take 2 ++ [47] ++ sha.drop 2

/-- The canonical encoding built at source line 283:
`obj.fmt + b' ' + str(len(data)).encode() + b'\x00' + data`. -/
def encodeWithHeader (obj : GitObject) : List Nat :=
  fmtBytes obj.fmt ++ [32] ++ toDecStr obj.serialize.length ++ [0] ++ obj.serialize

/-- Result of `object_write`: the returned hash, the store afterwards, and the
list of file writes the call performed (one `(path, bytes)` entry per
`open(path, 'wb'); f.write(...)` executed). -/
structure WriteResult where
  sha : List Nat
  store : Store
  written : List (List Nat × List Nat)
  deriving DecidableEq, Repr

/-- Embedding of `object_write(obj, actually_write)` (source lines 279-295):
serialize, prepend the `<fmt> <len>\x00` header, hash the whole encoding, and,
when `actually_write`, compress and write the file at `objects/<sha[0:2]>/<sha[2:]>`
(the source overwrites unconditionally: it has no existence check). -/
def object_write (codec : Codec) (obj : GitObject) (actually_write : Bool) (st : Store) :
    WriteResult :=
  let result := encodeWithHeader obj
  let sha := sha1Hex result
  if actually_write then
    ⟨sha, (objectPath sha, codec.compress result) :: st, [(objectPath sha, codec.compress result)]⟩
  else
    ⟨sha, st, []⟩

/-- Embedding of `object_read(repo, sha)` (source lines 239-269): look the file
up, decompress, find the first space (`x`) and the first NUL at or after it
(`y`), parse `raw[x:y]` as the length, compare it with the bytes remaining
after the NUL, then dispatch on `raw[0:x]`.  Header shapes on which the Python
slices out of the found-branch (`find` returning `-1`, `int()` failing) are
`HeaderParseFailure`. -/
def object_read (codec : Codec) (st : Store) (sha : List Nat) : Except GitError GitObject :=
  match storeLookup st (objectPath sha) with
  | none => .error .ObjectNotFound
  | some file =>
    match codec.decompress file with
    | none => .error .CorruptObject
    | some raw =>
      match bytesFind raw 32 with
      | none => .error .HeaderParseFailure
      | some x =>
        match findFrom raw 0 x with
        | none => .error .HeaderParseFailure
        | some y =>
          match pyInt (pySlice raw x y) with
          | none => .error .HeaderParseFailure
          | some size =>
            if size ≠ (raw.length : Int) - (y : Int) - 1 then .error .CorruptObject
            else
              let fmt := pySlice raw 0 x
              if fmt = fmtBytes .commit then .ok ⟨.commit, raw.drop (y + 1)⟩
              else if fmt = fmtBytes .tree then .ok ⟨.tree, raw.drop (y + 1)⟩
              else if fmt = fmtBytes .tag then .ok ⟨.tag, raw.drop (y + 1)⟩
              else if fmt = fmtBytes .blob then .ok ⟨.blob, raw.drop (y + 1)⟩
              else .error .UnknownObjectType

/-! Repository, locator, initializer (`libwyag.py` lines 44-201).

Canonical absolute directory paths are `List String`: the path's components
with the deepest first, `[]` the filesystem root.  `os.path.realpath` is the
identity on them (paths are taken already canonical; the locator's realpath
calls only re-canonicalize), and the parent of `c :: p` is `p`, the parent of
the root being the root itself — exactly the bottom test of `repo_find`. -/

/-- Repository as constructed by `GitRepository.__init__`: the work tree path
(the `gitdir` is always `worktree ++ "/.git"` and the parsed config is only
consulted during construction, so neither is carried). -/
structure GitRepository where
  worktree : List String
  deriving DecidableEq, Repr

/-- What the repository-construction code observes of the filesystem:
whether `path/.git` is an existing directory, whether it instead exists as a
non-directory entry (a regular file, say), whether `path/.git/config` exists,
whether `configparser` can read that file at all, and the raw string value of
`core.repositoryformatversion` in it (`none` when the section or option is
missing, in which case `conf.get` raises). -/
structure RepoFS where
  gitdirIsDir : List String → Bool
  gitdirIsFile : List String → Bool
  configFileIsThere : List String → Bool
  configParses : List String → Bool
  configVersionRaw : List String → Option (List Nat)

/-- Embedding of `GitRepository.__init__(path, force)` (source lines 52-73):
without `force` the `.git` directory must exist (`NotARepository`, line 58).
Then, force or not, `cf = repo_file(self, "config")` (line 63) sends the gitdir
itself through `repo_dir`, which raises `Not a directory` when `path/.git`
exists as a non-directory entry (lines 93-97), and `self.conf.read([cf])`
(line 66) raises `configparser`'s parse error on a malformed config file.
Without `force` the config file must further exist (`MissingConfig`) and
`int(core.repositoryformatversion)` must be 0 (`UnsupportedFormatVersion`);
`force` bypasses those three checks but not the two raises above. -/
def GitRepository.init (fs : RepoFS) (path : List String) (force : Bool) :
    Except GitError GitRepository :=
  if !force && !fs.gitdirIsDir path then .error .NotARepository
  else if fs.gitdirIsFile path then .error .NotADirectory
  else if fs.gitdirIsDir path && fs.configFileIsThere path then
    if !fs.configParses path then .error .ConfigParseFailure
    else if force then .ok ⟨path⟩
    else
      match fs.configVersionRaw path with
      | none => .error .ConfigParseFailure
      | some s =>
        match pyInt s with
        | none => .error .ConfigParseFailure
        | some v => if v ≠ 0 then .error .UnsupportedFormatVersion else .ok ⟨path⟩
  else if !force then .error .MissingConfig
  else .ok ⟨path⟩

/-- Embedding of `repo_find(path, required)` (source lines 182-201): walk
upward from the (canonical) start path; at each step, if `path/.git` is a
directory construct a `GitRepository` there; at the root, fail or return
absent. -/
def repo_find (fs : RepoFS) : List String → Bool → Except GitError (Option GitRepository)
  | [], required =>
    if fs.gitdirIsDir [] then (GitRepository.init fs [] false).map some
    else if required then .error .RepositoryNotFound
    else .ok none
  | c :: parent, required =>
    if fs.gitdirIsDir (c :: parent) then (GitRepository.init fs (c :: parent) false).map some
    else repo_find fs parent required

/-- The nearest ancestor (the start path included) whose `.git` is a
directory: the first hit of the upward walk. -/
def nearestGit (fs : RepoFS) : List String → Option (List String)
  | [] => if fs.gitdirIsDir [] then some [] else none
  | c :: p => if fs.gitdirIsDir (c :: p) then some (c :: p) else nearestGit fs p

/-- What `repo_create`'s precondition stage observes of the filesystem:
whether the target exists, whether it is a directory, and whether
`os.listdir` of it is empty. -/
structure DirFS where
  pathIsThere : List String → Bool
  isDir : List String → Bool
  listdirEmpty : List String → Bool

/-- Embedding of `repo_create(path)` (source lines 114-145).  The precondition
stage is source lines 120-126; note line 123 raises the "is not empty" error
when `os.listdir(repo.worktree)` IS empty (`if not os.listdir(...)`).  After
the precondition stage the directory/file layout is created and the repository
returned; those file side effects (and the unmodelled edge of `path/.git`
existing as a file) are outside every claim and not tracked. -/
def repo_create (fs : DirFS) (path : List String) : Except GitError GitRepository :=
  if fs.pathIsThere path then
    if !fs.isDir path then .error .NotADirectory
    else if fs.listdirEmpty path then .error .TargetNotEmpty
    else .ok ⟨path⟩
  else .ok ⟨path⟩

/-- Embedding of `object_find(repo, name, fmt, follow)` (source lines 274-275):
the placeholder resolver returns `name` unchanged. -/
def object_find (_repo : GitRepository) (name : List Nat) (_fmt : Option ObjType)
    (_follow : Bool) : List Nat :=
  name

/-! Facts about the decimal printer and Python's `int`. -/

theorem toDecStrF_digits (fuel : Nat) : ∀ n, n < fuel →
    ∀ d ∈ toDecStrF fuel n, 48 ≤ d ∧ d ≤ 57 := by
  induction fuel with
  | zero => omega
  | succ fuel ih =>
    intro n _ d hd
    simp only [toDecStrF] at hd
    by_cases h10 : n < 10
    · simp [h10] at hd
      omega
    · simp [h10, List.mem_append] at hd
      rcases hd with hd | hd
      · have hdiv : n / 10 < n := Nat.div_lt_self (by omega) (by omega)
        exact ih (n / 10) (by omega) d hd
      · have : n % 10 < 10 := Nat.mod_lt _ (by omega)
        omega

theorem toDecStrF_ne_nil (fuel : Nat) : ∀ n, n < fuel → toDecStrF fuel n ≠ [] := by
  induction fuel with
  | zero => omega
  | succ fuel _ =>
    intro n _
    simp only [toDecStrF]
    by_cases h10 : n < 10 <;> simp [h10]

theorem parseDigitsAcc_append (l1 l2 : List Nat) : ∀ acc,
    parseDigitsAcc acc (l1 ++ l2) = (parseDigitsAcc acc l1).bind fun a => parseDigitsAcc a l2 := by
  induction l1 with
  | nil => intro acc; simp [parseDigitsAcc]
  | cons d l1 ih =>
    intro acc
    simp only [List.cons_append, parseDigitsAcc]
    by_cases hd : 48 ≤ d ∧ d ≤ 57
    · simp [hd, ih]
    · simp [hd]

theorem parseDigitsAcc_toDecStrF (fuel : Nat) : ∀ n acc, n < fuel →
    parseDigitsAcc acc (toDecStrF fuel n)
      = some (acc * 10 ^ (toDecStrF fuel n).length + n) := by
  induction fuel with
  | zero => omega
  | succ fuel ih =>
    intro n acc _
    simp only [toDecStrF]
    by_cases h10 : n < 10
    · simp [h10, parseDigitsAcc]
      omega
    · have hdiv : n / 10 < n := Nat.div_lt_self (by omega) (by omega)
      simp only [h10, if_false, parseDigitsAcc_append, ih (n / 10) acc (by omega),
        Option.some_bind]
      have hstep : parseDigitsAcc (acc * 10 ^ (toDecStrF fuel (n / 10)).length + n / 10)
          [48 + n % 10]
          = some ((acc * 10 ^ (toDecStrF fuel (n / 10)).length + n / 10) * 10 + n % 10) := by
        simp only [parseDigitsAcc, if_pos (by omega : 48 ≤ 48 + n % 10 ∧ 48 + n % 10 ≤ 57)]
        congr 1
        omega
      rw [hstep]
      congr 1
      rw [List.length_append, List.length_singleton, pow_succ]
      have hmod := Nat.div_add_mod n 10
      set m := acc * 10 ^ (toDecStrF fuel (n / 10)).length with hm
      rw [Nat.mul_comm (10 ^ (toDecStrF fuel (n / 10)).length) 10,
        ← Nat.mul_assoc acc 10, Nat.mul_comm acc 10, Nat.mul_assoc 10 acc]
      rw [← hm]
      omega

theorem toDecStr_digits (n : Nat) : ∀ d ∈ toDecStr n, 48 ≤ d ∧ d ≤ 57 :=
  toDecStrF_digits (n + 1) n (Nat.lt_succ_self n)

theorem toDecStr_ne_nil (n : Nat) : toDecStr n ≠ [] :=
  toDecStrF_ne_nil (n + 1) n (Nat.lt_succ_self n)

theorem parseDigitsAcc_toDecStr (n : Nat) : parseDigitsAcc 0 (toDecStr n) = some n := by
  have := parseDigitsAcc_toDecStrF (n + 1) n 0 (Nat.lt_succ_self n)
  simpa using this

theorem dropWhile_isSpaceByte_of_digits (l : List Nat) (h : ∀ d ∈ l, 48 ≤ d ∧ d ≤ 57) :
    l.dropWhile isSpaceByte = l := by
  cases l with
  | nil => rfl
  | cons d t =>
    have hd := h d (List.mem_cons_self d t)
    have : isSpaceByte d = false := by simp [isSpaceByte]; omega
    simp [List.dropWhile_cons, this]

theorem stripSpaces_space_digits (n : Nat) : stripSpaces (32 :: toDecStr n) = toDecStr n := by
  unfold stripSpaces
  have h1 : (32 :: toDecStr n).dropWhile isSpaceByte = toDecStr n := by
    rw [List.dropWhile_cons, if_pos (by decide : isSpaceByte 32 = true)]
    exact dropWhile_isSpaceByte_of_digits _ (toDecStr_digits n)
  rw [h1]
  have h2 : (toDecStr n).reverse.dropWhile isSpaceByte = (toDecStr n).reverse := by
    apply dropWhile_isSpaceByte_of_digits
    intro d hd
    exact toDecStr_digits n d (List.mem_reverse.mp hd)
  rw [h2, List.reverse_reverse]

theorem pyInt_space_toDecStr (n : Nat) : pyInt (32 :: toDecStr n) = some (n : Int) := by
  unfold pyInt
  rw [stripSpaces_space_digits]
  obtain ⟨d, t, ht⟩ : ∃ d t, toDecStr n = d :: t := by
    cases h : toDecStr n with
    | nil => exact absurd h (toDecStr_ne_nil n)
    | cons d t => exact ⟨d, t, rfl⟩
  rw [ht]
  have hd : 48 ≤ d ∧ d ≤ 57 := by
    have := toDecStr_digits n d (by rw [ht]; exact List.mem_cons_self d t)
    exact this
  have h43 : ¬ d = 43 := by omega
  have h45 : ¬ d = 45 := by omega
  simp only [h43, if_false, h45]
  have := parseDigitsAcc_toDecStr n
  rw [ht] at this
  simp [this]

/-! Facts about `bytesFind` and the header of a canonical encoding. -/

theorem bytesFind_append_of_not_mem (l1 l2 : List Nat) (b : Nat) (h : b ∉ l1) :
    bytesFind (l1 ++ l2) b = (bytesFind l2 b).map (· + l1.length) := by
  induction l1 with
  | nil =>
    cases h2 : bytesFind l2 b <;> simp [h2]
  | cons c t ih =>
    have hcb : ¬ c = b := fun hc => h (hc ▸ List.mem_cons_self c t)
    have ih2 := ih (fun hm => h (List.mem_cons_of_mem c hm))
    rw [List.cons_append]
    show (if c = b then some 0 else (bytesFind (t ++ l2) b).map (· + 1))
        = (bytesFind l2 b).map (· + (c :: t).length)
    rw [if_neg hcb, ih2]
    cases h2 : bytesFind l2 b with
    | none => rfl
    | some j =>
      show some (j + t.length + 1) = some (j + (t.length + 1))
      rw [Nat.add_assoc]

theorem bytesFind_some_lt (b : Nat) : ∀ (l : List Nat) (i : Nat),
    bytesFind l b = some i → i < l.length := by
  intro l
  induction l with
  | nil => intro i h; simp [bytesFind] at h
  | cons c t ih =>
    intro i h
    simp only [bytesFind] at h
    by_cases hc : c = b
    · rw [if_pos hc] at h
      injection h with h
      simp [← h]
    · rw [if_neg hc] at h
      cases ht : bytesFind t b with
      | none => rw [ht] at h; exact absurd h (by simp)
      | some j =>
        rw [ht] at h
        injection h with h
        have := ih j ht
        simp only [List.length_cons, ← h]
        omega

theorem mem_toDecStr_ne (n d : Nat) (hd : d ∈ toDecStr n) : d ≠ 32 ∧ d ≠ 0 := by
  have := toDecStr_digits n d hd
  omega

theorem encodeWithHeader_eq (t : ObjType) (P : List Nat) :
    encodeWithHeader ⟨t, P⟩
      = fmtBytes t ++ (32 :: (toDecStr P.length ++ (0 :: P))) := by
  simp [encodeWithHeader, GitObject.serialize]

/-- Steps 3 and 4 of `object_read` on a canonical encoding: the first space is
right after the type token, the first NUL after it is right after the decimal
length, and the length field parses back to the payload's length. -/
theorem header_of_encode (t : ObjType) (P : List Nat) :
    bytesFind (encodeWithHeader ⟨t, P⟩) 32 = some (fmtBytes t).length
  ∧ findFrom (encodeWithHeader ⟨t, P⟩) 0 (fmtBytes t).length
      = some ((fmtBytes t).length + 1 + (toDecStr P.length).length)
  ∧ pyInt (pySlice (encodeWithHeader ⟨t, P⟩) (fmtBytes t).length
      ((fmtBytes t).length + 1 + (toDecStr P.length).length)) = some (P.length : Int) := by
  have hfmt32 : 32 ∉ fmtBytes t := by cases t <;> decide
  refine ⟨?_, ?_, ?_⟩
  · rw [encodeWithHeader_eq, bytesFind_append_of_not_mem _ _ _ hfmt32]
    simp [bytesFind]
  · unfold findFrom
    rw [encodeWithHeader_eq, List.drop_left]
    have h0 : (0 : Nat) ∉ 32 :: toDecStr P.length := by
      intro hm
      rcases List.mem_cons.mp hm with h | h
      · omega
      · exact ((mem_toDecStr_ne _ _ h).2 rfl).elim
    have : (32 : Nat) :: (toDecStr P.length ++ (0 :: P))
        = (32 :: toDecStr P.length) ++ (0 :: P) := by simp
    rw [this, bytesFind_append_of_not_mem _ _ _ h0]
    simp only [bytesFind, if_pos rfl]
    simp
    omega
  · unfold pySlice
    rw [encodeWithHeader_eq]
    have hassoc : fmtBytes t ++ (32 :: (toDecStr P.length ++ (0 :: P)))
        = (fmtBytes t ++ (32 :: toDecStr P.length)) ++ (0 :: P) := by simp
    rw [hassoc]
    have hlen : ((fmtBytes t) ++ (32 :: toDecStr P.length)).length
        = (fmtBytes t).length + 1 + (toDecStr P.length).length := by
      simp
      omega
    rw [← hlen, List.take_left, List.drop_left, pyInt_space_toDecStr]

/-- Reading back a stored canonical encoding recovers the object: the heart of
the round-trip. -/
theorem object_read_encoded (c : Codec) (st : Store) (sha : List Nat) (t : ObjType)
    (P : List Nat)
    (h : storeLookup st (objectPath sha) = some (c.compress (encodeWithHeader ⟨t, P⟩))) :
    object_read c st sha = .ok ⟨t, P⟩ := by
  obtain ⟨hx, hy, hs⟩ := header_of_encode t P
  have hlen : (encodeWithHeader ⟨t, P⟩).length
      = (fmtBytes t).length + 1 + (toDecStr P.length).length + 1 + P.length := by
    rw [encodeWithHeader_eq]
    simp
    omega
  have hfmt : pySlice (encodeWithHeader ⟨t, P⟩) 0 (fmtBytes t).length = fmtBytes t := by
    unfold pySlice
    rw [encodeWithHeader_eq, List.take_left, List.drop_zero]
  have hdrop : (encodeWithHeader ⟨t, P⟩).drop
      ((fmtBytes t).length + 1 + (toDecStr P.length).length + 1) = P := by
    rw [encodeWithHeader_eq]
    have hsplit : fmtBytes t ++ (32 :: (toDecStr P.length ++ (0 :: P)))
        = (fmtBytes t ++ (32 :: toDecStr P.length ++ [0])) ++ P := by simp
    rw [hsplit]
    have hl : (fmtBytes t ++ (32 :: toDecStr P.length ++ [0])).length
        = (fmtBytes t).length + 1 + (toDecStr P.length).length + 1 := by
      simp
      omega
    rw [← hl, List.drop_left]
  have hsize : ¬ ((P.length : Int)
      ≠ ((encodeWithHeader ⟨t, P⟩).length : Int)
        - (((fmtBytes t).length + 1 + (toDecStr P.length).length : Nat) : Int) - 1) := by
    rw [hlen]
    push_cast
    omega
  simp only [object_read, h, Codec.decompress_compress, hx, hy, hs]
  rw [if_neg hsize]
  simp only [hfmt, hdrop]
  cases t <;> simp [fmtBytes]

/-- C1 (confirmed): round-trip through the object store — writing a Blob whose
payload is `P` with `object_write` and reading the returned hash back with
`object_read` yields a Blob whose payload is exactly `P`, for every payload,
prior store and codec. -/
theorem object_write_read_roundtrip (c : Codec) (P : List Nat) (st : Store) :
    object_read c (object_write c ⟨.blob, P⟩ true st).store
      (object_write c ⟨.blob, P⟩ true st).sha = .ok ⟨.blob, P⟩ := by
  apply object_read_encoded
  simp [object_write, storeLookup]

set_option maxRecDepth 100000

/-! Shape of the hex digest. -/

theorem toHex_length (l : List Nat) : (toHex l).length = 2 * l.length := by
  induction l with
  | nil => rfl
  | cons b bs ih =>
    simp only [toHex, List.length_cons, ih]
    omega

theorem hexDigit_range (k : Nat) (hk : k < 16) :
    (48 ≤ hexDigit k ∧ hexDigit k ≤ 57) ∨ (97 ≤ hexDigit k ∧ hexDigit k ≤ 102) := by
  unfold hexDigit
  by_cases h : k < 10
  · rw [if_pos h]
    omega
  · rw [if_neg h]
    omega

theorem mem_toHex_range (l : List Nat) :
    ∀ d ∈ toHex l, (48 ≤ d ∧ d ≤ 57) ∨ (97 ≤ d ∧ d ≤ 102) := by
  induction l with
  | nil => intro d hd; simp [toHex] at hd
  | cons b bs ih =>
    intro d hd
    simp only [toHex, List.mem_cons] at hd
    rcases hd with h | h | h
    · exact h ▸ hexDigit_range _ (Nat.mod_lt _ (by omega))
    · exact h ▸ hexDigit_range _ (Nat.mod_lt _ (by omega))
    · exact ih d h

theorem sha1_length (msg : List Nat) : (sha1 msg).length = 20 := by
  unfold sha1
  obtain ⟨h0, h1, h2, h3, h4⟩ := (chunks64F (sha1Pad msg).length (sha1Pad msg)).foldl
    sha1Block (1732584193, 4023233417, 2562383102, 271733878, 3285377520)
  simp [wordBE]

theorem sha1Hex_length (msg : List Nat) : (sha1Hex msg).length = 40 := by
  rw [sha1Hex, toHex_length, sha1_length]

theorem sha1Hex_range (msg : List Nat) :
    ∀ d ∈ sha1Hex msg, (48 ≤ d ∧ d ≤ 57) ∨ (97 ≤ d ∧ d ≤ 102) :=
  mem_toHex_range (sha1 msg)

/-- C4 (confirmed): the hash `object_write` returns is the lowercase
40-character hex SHA-1 of the full canonical encoding
`<type-token> <decimal-length>\x00<payload>` — header included, not just the
payload — it is the same whether or not persistence was requested, and with
`actually_write = false` no file is written and the store is untouched. -/
theorem object_write_address (c : Codec) (obj : GitObject) (st : Store) :
    (object_write c obj true st).sha
      = sha1Hex (fmtBytes obj.fmt ++ [32] ++ toDecStr obj.serialize.length ++ [0]
          ++ obj.serialize)
  ∧ (object_write c obj false st).sha = (object_write c obj true st).sha
  ∧ (object_write c obj false st).sha.length = 40
  ∧ (∀ d ∈ (object_write c obj false st).sha, (48 ≤ d ∧ d ≤ 57) ∨ (97 ≤ d ∧ d ≤ 102))
  ∧ (object_write c obj false st).store = st
  ∧ (object_write c obj false st).written = [] := by
  refine ⟨rfl, rfl, ?_, ?_, rfl, rfl⟩
  · exact sha1Hex_length (encodeWithHeader obj)
  · exact sha1Hex_range (encodeWithHeader obj)

/-- C5 counterexample: the claim says a second `object_write` of the same
object "performs no additional disk write"; on the code the second call opens
and writes the object file again (the source has no existence check), so its
write list is non-empty and the raw store gains a second entry. -/
theorem object_write_second_call_writes_again :
    (object_write idCodec ⟨.blob, ascii "hello\n"⟩ true
        (object_write idCodec ⟨.blob, ascii "hello\n"⟩ true []).store).written ≠ []
  ∧ (object_write idCodec ⟨.blob, ascii "hello\n"⟩ true
        (object_write idCodec ⟨.blob, ascii "hello\n"⟩ true []).store).store
      ≠ (object_write idCodec ⟨.blob, ascii "hello\n"⟩ true []).store := by
  constructor
  · simp [object_write]
  · intro h
    have := congrArg List.length h
    simp [object_write] at this

/-- C5 (amended, proved): `object_write` called twice on the same object
returns the same hash both times, and the second call rewrites the object file
with identical bytes — it does perform a second disk write, but of the same
content at the same path, so the content of every file after the second call
equals its content after the first, byte for byte. -/
theorem object_write_idempotent_content (c : Codec) (obj : GitObject) (st : Store) :
    (object_write c obj true ((object_write c obj true st).store)).sha
      = (object_write c obj true st).sha
  ∧ (object_write c obj true ((object_write c obj true st).store)).written
      = [(objectPath (object_write c obj true st).sha, c.compress (encodeWithHeader obj))]
  ∧ ∀ q, storeLookup (object_write c obj true ((object_write c obj true st).store)).store q
      = storeLookup (object_write c obj true st).store q := by
  refine ⟨rfl, rfl, ?_⟩
  intro q
  by_cases hq : objectPath (sha1Hex (encodeWithHeader obj)) = q <;>
    simp [object_write, storeLookup, hq]

theorem findFrom_some_lt (l : List Nat) (b s y : Nat) (h : findFrom l b s = some y) :
    y < l.length := by
  unfold findFrom at h
  cases hb : bytesFind (l.drop s) b with
  | none => rw [hb] at h; exact absurd h (by simp)
  | some i =>
    rw [hb] at h
    simp only [Option.map_some', Option.some.injEq] at h
    have hi := bytesFind_some_lt b _ i hb
    rw [List.length_drop] at hi
    omega

/-- C6 (confirmed): after decompression and header location, if the parsed
decimal length differs from the number of bytes remaining after the first NUL,
`object_read` fails with `CorruptObject`; and whenever it does return an
object, that object's payload is exactly the bytes after the NUL and its
length exactly matches the parsed length — never truncated, never padded. -/
theorem object_read_length_check (c : Codec) (st : Store) (sha file raw : List Nat)
    (x y : Nat) (size : Int)
    (hf : storeLookup st (objectPath sha) = some file)
    (hd : c.decompress file = some raw)
    (hx : bytesFind raw 32 = some x)
    (hy : findFrom raw 0 x = some y)
    (hs : pyInt (pySlice raw x y) = some size) :
    (size ≠ (raw.length : Int) - (y : Int) - 1 → object_read c st sha = .error .CorruptObject)
  ∧ (∀ obj, object_read c st sha = .ok obj
      → obj.payload = raw.drop (y + 1) ∧ (obj.payload.length : Int) = size) := by
  have hylt : y < raw.length := findFrom_some_lt raw 0 x y hy
  constructor
  · intro hne
    simp only [object_read, hf, hd, hx, hy, hs]
    rw [if_pos hne]
  · intro obj hok
    simp only [object_read, hf, hd, hx, hy, hs] at hok
    by_cases hne : size ≠ (raw.length : Int) - (y : Int) - 1
    · rw [if_pos hne] at hok
      exact absurd hok (by simp)
    · rw [if_neg hne] at hok
      push_neg at hne
      have hdlen : ((raw.drop (y + 1)).length : Int) = size := by
        rw [List.length_drop]
        omega
      split at hok
      · injection hok with hoe
        subst hoe
        exact ⟨rfl, hdlen⟩
      · split at hok
        · injection hok with hoe
          subst hoe
          exact ⟨rfl, hdlen⟩
        · split at hok
          · injection hok with hoe
            subst hoe
            exact ⟨rfl, hdlen⟩
          · split at hok
            · injection hok with hoe
              subst hoe
              exact ⟨rfl, hdlen⟩
            · exact absurd hok (by simp)

/-- C6 witness: a stored record `blob 7\x00hello\n` whose header claims 7 bytes
while 6 remain is rejected as corrupt. -/
theorem object_read_length_check_witness :
    object_read idCodec [(objectPath (ascii "abcd"), ascii "blob 7\x00hello\n")]
      (ascii "abcd") = .error .CorruptObject :=
  (object_read_length_check idCodec
      [(objectPath (ascii "abcd"), ascii "blob 7\x00hello\n")]
      (ascii "abcd") (ascii "blob 7\x00hello\n") (ascii "blob 7\x00hello\n")
      4 6 7 (by decide) (by decide) (by decide) (by decide) (by decide)).1 (by decide)

/-- C7 (confirmed): once the header has parsed and the length check passed,
`object_read` dispatches the type token to exactly the matching one of the
four variants Blob, Tree, Commit, Tag, and fails with `UnknownObjectType` on
any other token instead of returning an object. -/
theorem object_read_dispatch (c : Codec) (st : Store) (sha file raw : List Nat)
    (x y : Nat) (size : Int)
    (hf : storeLookup st (objectPath sha) = some file)
    (hd : c.decompress file = some raw)
    (hx : bytesFind raw 32 = some x)
    (hy : findFrom raw 0 x = some y)
    (hs : pyInt (pySlice raw x y) = some size)
    (hsz : size = (raw.length : Int) - (y : Int) - 1) :
    (pySlice raw 0 x ≠ fmtBytes .commit → pySlice raw 0 x ≠ fmtBytes .tree →
     pySlice raw 0 x ≠ fmtBytes .tag → pySlice raw 0 x ≠ fmtBytes .blob →
     object_read c st sha = .error .UnknownObjectType)
  ∧ (∀ t : ObjType, pySlice raw 0 x = fmtBytes t
      → object_read c st sha = .ok ⟨t, raw.drop (y + 1)⟩) := by
  have hnne : ¬ (size ≠ (raw.length : Int) - (y : Int) - 1) := fun hne => hne hsz
  constructor
  · intro h1 h2 h3 h4
    simp only [object_read, hf, hd, hx, hy, hs]
    rw [if_neg hnne, if_neg h1, if_neg h2, if_neg h3, if_neg h4]
  · intro t ht
    simp only [object_read, hf, hd, hx, hy, hs]
    rw [if_neg hnne]
    cases t <;> simp [ht, fmtBytes]

/-- C7 witness: a stored record with the unknown type token `zorp` (well-formed
header, correct length) fails with `UnknownObjectType`. -/
theorem object_read_dispatch_witness :
    object_read idCodec [(objectPath (ascii "abcd"), ascii "zorp 3\x00abc")]
      (ascii "abcd") = .error .UnknownObjectType :=
  (object_read_dispatch idCodec
      [(objectPath (ascii "abcd"), ascii "zorp 3\x00abc")]
      (ascii "abcd") (ascii "zorp 3\x00abc") (ascii "zorp 3\x00abc")
      4 6 3 (by decide) (by decide) (by decide) (by decide) (by decide)
      (by decide)).1 (by decide) (by decide) (by decide) (by decide)

/-- C8 (confirmed): `repo_find` returns a Repository rooted at the nearest
ancestor of the start path (the start itself included) whose `.git` is a
directory — nearest in the sense that every strictly deeper ancestor has
none — and when no ancestor qualifies, the walk reaches the filesystem root
and fails with `RepositoryNotFound` when `required` is true, returning absent
otherwise. -/
theorem repo_find_locator (fs : RepoFS) (p : List String) (required : Bool) :
    (∀ a, nearestGit fs p = some a →
        repo_find fs p required = (GitRepository.init fs a false).map some
      ∧ fs.gitdirIsDir a = true
      ∧ a.IsSuffix p
      ∧ (∀ b, b.IsSuffix p → a.IsSuffix b → b ≠ a → fs.gitdirIsDir b = false))
  ∧ (nearestGit fs p = none →
        (∀ b, b.IsSuffix p → fs.gitdirIsDir b = false)
      ∧ repo_find fs p required
          = if required then .error .RepositoryNotFound else .ok none) := by
  induction p with
  | nil =>
    by_cases hg : fs.gitdirIsDir [] = true
    · constructor
      · intro a ha
        simp only [nearestGit, if_pos hg] at ha
        injection ha with ha
        subst ha
        refine ⟨by simp [repo_find, hg], hg, List.suffix_rfl, ?_⟩
        intro b hb _ hne
        exact absurd (List.suffix_nil.mp hb) hne
      · intro hn
        simp only [nearestGit, if_pos hg] at hn
        exact absurd hn (by simp)
    · constructor
      · intro a ha
        simp only [nearestGit, if_neg hg] at ha
        exact absurd ha (by simp)
      · intro _
        refine ⟨?_, by simp [repo_find, hg]⟩
        intro b hb
        rw [List.suffix_nil.mp hb]
        simpa using hg
  | cons c t ih =>
    by_cases hg : fs.gitdirIsDir (c :: t) = true
    · constructor
      · intro a ha
        simp only [nearestGit, if_pos hg] at ha
        injection ha with ha
        subst ha
        refine ⟨by simp [repo_find, hg], hg, List.suffix_rfl, ?_⟩
        intro b hbp hab hne
        exact absurd (List.IsSuffix.eq_of_length hbp
          (le_antisymm (List.IsSuffix.length_le hbp) (List.IsSuffix.length_le hab))) hne
      · intro hn
        simp only [nearestGit, if_pos hg] at hn
        exact absurd hn (by simp)
    · have hg' : fs.gitdirIsDir (c :: t) = false := by simpa using hg
      constructor
      · intro a ha
        simp only [nearestGit, if_neg hg] at ha
        obtain ⟨hrf, hga, hsuf, hmin⟩ := ih.1 a ha
        refine ⟨?_, hga, hsuf.trans (List.suffix_cons c t), ?_⟩
        · simp only [repo_find, if_neg hg]
          exact hrf
        · intro b hbp hab hne
          rcases List.suffix_cons_iff.mp hbp with hb | hb
          · rw [hb]
            exact hg'
          · exact hmin b hb hab hne
      · intro hn
        simp only [nearestGit, if_neg hg] at hn
        obtain ⟨hall, hrf⟩ := ih.2 hn
        refine ⟨?_, ?_⟩
        · intro b hbp
          rcases List.suffix_cons_iff.mp hbp with hb | hb
          · rw [hb]
            exact hg'
          · exact hall b hb
        · simp only [repo_find, if_neg hg]
          exact hrf

/-- C9 (confirmed): with `force = false`, Repository construction fails with
`UnsupportedFormatVersion` whenever the config's `repositoryformatversion`
parses as an integer different from 0; with `force = true` construction
bypasses the metadata-directory, config-presence and version checks: it
succeeds whatever those three observations are — the metadata directory may be
missing, the config absent, the version arbitrary — provided only that the two
raises which survive `force` do not fire (`path/.git` existing as a
non-directory entry, and a config file `configparser` cannot read). -/
theorem repository_config_gate (fs : RepoFS) (p : List String) (s : List Nat) (v : Int)
    (hg : fs.gitdirIsDir p = true) (hnf : fs.gitdirIsFile p = false)
    (hc : fs.configFileIsThere p = true) (hcp : fs.configParses p = true)
    (hr : fs.configVersionRaw p = some s) (hp : pyInt s = some v) (hv : v ≠ 0) :
    GitRepository.init fs p false = .error .UnsupportedFormatVersion
  ∧ ∀ (fs2 : RepoFS) (p2 : List String),
      fs2.gitdirIsFile p2 = false →
      (fs2.gitdirIsDir p2 = true → fs2.configFileIsThere p2 = true →
        fs2.configParses p2 = true) →
      GitRepository.init fs2 p2 true = .ok ⟨p2⟩ := by
  constructor
  · simp only [GitRepository.init, hg, hnf, hc, hcp, hr, hp]
    simp [hv]
  · intro fs2 p2 hfile hread
    simp only [GitRepository.init, hfile]
    by_cases h2 : fs2.gitdirIsDir p2 && fs2.configFileIsThere p2
    · have h2' := Bool.and_eq_true_iff.mp h2
      simp [h2, hread h2'.1 h2'.2]
    · simp [h2]

/-- C9 witness: a filesystem whose config holds `repositoryformatversion = 2`
is rejected without `force` and accepted with it. -/
theorem repository_config_gate_witness :
    GitRepository.init
      ⟨fun _ => true, fun _ => false, fun _ => true, fun _ => true,
       fun _ => some (ascii "2")⟩ ["repo"] false = .error .UnsupportedFormatVersion
  ∧ ∀ (fs2 : RepoFS) (p2 : List String),
      fs2.gitdirIsFile p2 = false →
      (fs2.gitdirIsDir p2 = true → fs2.configFileIsThere p2 = true →
        fs2.configParses p2 = true) →
      GitRepository.init fs2 p2 true = .ok ⟨p2⟩ :=
  repository_config_gate
    ⟨fun _ => true, fun _ => false, fun _ => true, fun _ => true,
     fun _ => some (ascii "2")⟩
    ["repo"] (ascii "2") 2 rfl rfl rfl rfl rfl (by decide) (by decide)

/-- C2 (code_bug): the precondition stage of `repo_create`, evaluated on the
four kinds of target.  Line 123 of the source (`if not os.listdir(...)`)
raises the "is not empty" error precisely when the existing directory IS
empty, and proceeds when it is non-empty — the opposite of the claim, of the
spec, and of the source's own comment ("create one if it doesn't exist, or
check for emptiness otherwise").  The not-a-directory branch does match the
claim. -/
theorem repo_create_precondition_flip :
    repo_create ⟨fun _ => true, fun _ => true, fun _ => true⟩ ["p"] = .error .TargetNotEmpty
  ∧ repo_create ⟨fun _ => true, fun _ => true, fun _ => false⟩ ["p"] = .ok ⟨["p"]⟩
  ∧ repo_create ⟨fun _ => false, fun _ => false, fun _ => false⟩ ["p"] = .ok ⟨["p"]⟩
  ∧ repo_create ⟨fun _ => true, fun _ => false, fun _ => false⟩ ["p"]
      = .error .NotADirectory :=
  ⟨rfl, rfl, rfl, rfl⟩

/-- C3 counterexample: the hash the claim states
(`ce013625030ba8dba906f756967f9e9ca394464`, 39 hex characters) is not the hash
`object_write` returns for the Blob `hello\n`. -/
theorem object_write_hello_claimed_hash_wrong :
    (object_write idCodec ⟨.blob, ascii "hello\n"⟩ true []).sha
      ≠ ascii "ce013625030ba8dba906f756967f9e9ca394464" := by
  decide

/-- C3 (amended, proved): `object_write` on a Blob with payload `hello\n`
returns the 40-character hash `ce013625030ba8dba906f756967f9e9ca394464a` and
creates the file `objects/ce/013625030ba8dba906f756967f9e9ca394464a` whose
contents are the compression of the canonical encoding `blob 6\x00hello\n`,
for every codec. -/
theorem object_write_hello_concrete (c : Codec) :
    (object_write c ⟨.blob, ascii "hello\n"⟩ true []).sha
      = ascii "ce013625030ba8dba906f756967f9e9ca394464a"
  ∧ (object_write c ⟨.blob, ascii "hello\n"⟩ true []).store
      = [(ascii "objects/ce/013625030ba8dba906f756967f9e9ca394464a",
          c.compress (ascii "blob 6\x00hello\n"))] := by
  have henc : encodeWithHeader ⟨.blob, ascii "hello\n"⟩ = ascii "blob 6\x00hello\n" := by
    decide
  have hsha : sha1Hex (ascii "blob 6\x00hello\n")
      = ascii "ce013625030ba8dba906f756967f9e9ca394464a" := by decide
  have hpath : objectPath (ascii "ce013625030ba8dba906f756967f9e9ca394464a")
      = ascii "objects/ce/013625030ba8dba906f756967f9e9ca394464a" := by decide
  constructor
  · show sha1Hex (encodeWithHeader ⟨.blob, ascii "hello\n"⟩) = _
    rw [henc, hsha]
  · show [(objectPath (sha1Hex (encodeWithHeader ⟨.blob, ascii "hello\n"⟩)),
        c.compress (encodeWithHeader ⟨.blob, ascii "hello\n"⟩))] = _
    rw [henc, hsha, hpath]

/-- C10 (confirmed): `object_find` is the total identity on the name for every
input — branch names, tag names, `HEAD`, short hashes, malformed strings alike
— and its result does not depend on the repository (or on the format and
follow arguments) at all; being a total function, it never fails. -/
theorem object_find_total_identity (repo : GitRepository) (name : List Nat)
    (fmt : Option ObjType) (follow : Bool) :
    object_find repo name fmt follow = name
  ∧ ∀ (repo2 : GitRepository) (fmt2 : Option ObjType) (follow2 : Bool),
      object_find repo2 name fmt2 follow2 = object_find repo name fmt follow :=
  ⟨rfl, fun _ _ _ => rfl⟩
